import Mathlib

/-!
Verification of the NR-scanner core (`src/app.py`): narrow-range flag
computation, breakout tracking, daily candle aggregation, the ccxt
adapter's closed-candle contract, the CoinGecko retry loop, error-text
surfacing, and futures-market selection.  Each Python function the claims
touch is shallowly embedded as an executable Lean definition; prices are
rationals (the Python code only compares, takes min/max and subtracts, so
the embedding is exact).
-/

attribute [local semireducible] Rat.add Rat.sub Rat.mul Rat.inv

/-- A closed candle row as built by the source (`{"time", "high", "low",
"close", "range"}`); `time` is an abstract timestamp. -/
structure Candle where
  time : Nat
  high : Rat
  low : Rat
  close : Rat
  range : Rat
deriving Repr, DecidableEq

instance : Inhabited Candle := ⟨⟨0, 0, 0, 0, 0⟩⟩

/-- The slice `rngs[max(0, i-(w-1)) : i+1]` from `compute_nr_flags`. -/
def nrWindow (rngs : List Rat) (w i : Nat) : List Rat :=
  (rngs.take (i + 1)).drop (i + 1 - w)

/-- `lst10`/`lst7`/`lst4` of `compute_nr_flags`: the window minimum when at
least `w` values are present, else `None`. -/
def nrWindowMin (rngs : List Rat) (w i : Nat) : Option Rat :=
  let win := nrWindow rngs w i
  if w ≤ win.length then win.min? else none

/-- The raw window test of `compute_nr_flags` before suppression:
`lstw is not None and rngs[i] == lstw`. -/
def rawNR (rngs : List Rat) (w i : Nat) : Bool :=
  match nrWindowMin rngs w i with
  | some m => rngs.getD i 0 == m
  | none => false

/-- `is10` of `compute_nr_flags`. -/
def nr10flag (rngs : List Rat) (i : Nat) : Bool :=
  rawNR rngs 10 i

/-- `is7` of `compute_nr_flags`: the raw NR7 test and not `is10`. -/
def nr7flag (rngs : List Rat) (i : Nat) : Bool :=
  rawNR rngs 7 i && !(nr10flag rngs i)

/-- `is4` of `compute_nr_flags`: the raw NR4 test and not `is7` and not
`is10`. -/
def nr4flag (rngs : List Rat) (i : Nat) : Bool :=
  rawNR rngs 4 i && !(nr7flag rngs i) && !(nr10flag rngs i)

/-- `compute_nr_flags(closed)`: the `(nr4, nr7, nr10)` boolean lists. -/
def compute_nr_flags (closed : List Candle) : List Bool × List Bool × List Bool :=
  let rngs := closed.map Candle.range
  let n := closed.length
  ((List.range n).map (fun i => nr4flag rngs i),
   (List.range n).map (fun i => nr7flag rngs i),
   (List.range n).map (fun i => nr10flag rngs i))

/-- Modelled from the spec (§4.5), for comparison with `rawNR`:
`isNRw(i) = (w candles are available ending at i) AND
(range[i] == min(range[i-w+1..i]))`. -/
def isNRw_spec (rngs : List Rat) (w i : Nat) : Prop :=
  w ≤ i + 1 ∧ i < rngs.length ∧
    ∀ j, i + 1 - w ≤ j → j ≤ i → rngs.getD i 0 ≤ rngs.getD j 0

/-- The mutable loop state of `simulate_breakouts_since_last_nr`:
`(up_check, down_check, up_count, down_count, breakout_state, breakout_tag)`. -/
structure TrackState where
  up_check : Bool
  down_check : Bool
  up_count : Nat
  down_count : Nat
  state : String
  tag : String
deriving Repr, DecidableEq

/-- One iteration of the forward loop of `simulate_breakouts_since_last_nr`
(the four `if` statements, applied in source order). -/
def breakoutStep (rl rh mid prev_close cur_close : Rat) (s : TrackState) : TrackState :=
  let s1 := if cur_close > mid ∧ s.down_check = false then
    { s with down_check := true } else s
  let s2 := if prev_close ≥ rl ∧ cur_close < rl ∧ s1.down_check = true then
    { s1 with down_count := s1.down_count + 1, down_check := false,
              state := "DOWN", tag := "DOWN#" ++ toString (s1.down_count + 1) }
    else s1
  let s3 := if cur_close < mid ∧ s2.up_check = false then
    { s2 with up_check := true } else s2
  if prev_close ≤ rh ∧ cur_close > rh ∧ s3.up_check = true then
    { s3 with up_count := s3.up_count + 1, up_check := false,
              state := "UP", tag := "UP#" ++ toString (s3.up_count + 1) }
  else s3

/-- Result tuple of `simulate_breakouts_since_last_nr`; the Python
sentinels `""` (no setup time) and `None` (no range bounds) are `none`. -/
structure BreakoutResult where
  setup_time : Option Nat
  setup_type : String
  breakout_state : String
  breakout_tag : String
  up_count : Nat
  down_count : Nat
  rh : Option Rat
  rl : Option Rat
deriving Repr, DecidableEq

/-- The `("", "", "-", "-", 0, 0, None, None)` tuple returned when the
series is too short or has no NR setup. -/
def noSetupResult : BreakoutResult :=
  ⟨none, "", "-", "-", 0, 0, none, none⟩

/-- The backward scan of `simulate_breakouts_since_last_nr`: the greatest
index whose NR10, NR7 or NR4 flag is set that the Python
`for i in range(n-1, -1, -1)` loop stops at. -/
def findSetup (nr4 nr7 nr10 : List Bool) (n : Nat) : Option Nat :=
  (List.range n).reverse.find?
    (fun i => nr10.getD i false || nr7.getD i false || nr4.getD i false)

/-- `simulate_breakouts_since_last_nr(closed)`. -/
def simulate_breakouts_since_last_nr (closed : List Candle) : BreakoutResult :=
  if closed.length < 12 then noSetupResult
  else
    match compute_nr_flags closed with
    | (nr4_flags, nr7_flags, nr10_flags) =>
      match findSetup nr4_flags nr7_flags nr10_flags closed.length with
      | none => noSetupResult
      | some setup_idx =>
        let setup_type :=
          if nr10_flags.getD setup_idx false then "NR10"
          else if nr7_flags.getD setup_idx false then "NR7" else "NR4"
        let rh := (closed.getD setup_idx default).high
        let rl := (closed.getD setup_idx default).low
        let mid := (rh + rl) / 2
        let final := (List.range' (setup_idx + 1) (closed.length - (setup_idx + 1))).foldl
          (fun s j => breakoutStep rl rh mid
            ((closed.getD (j - 1) default).close) ((closed.getD j default).close) s)
          ⟨true, true, 0, 0, "-", "-"⟩
        ⟨some (closed.getD setup_idx default).time, setup_type,
         final.state, final.tag, final.up_count, final.down_count, some rh, some rl⟩

/-- A raw CoinGecko OHLC tick `[ts, o, h, l, c]` (`ts` in milliseconds). -/
structure Tick where
  ts : Nat
  o : Rat
  h : Rat
  l : Rat
  c : Rat
deriving Repr, DecidableEq

/-- The UTC calendar day of a millisecond timestamp
(`datetime.fromtimestamp(ts/1000, tz=utc).date()`), as a day number. -/
def dayOf (ts : Nat) : Nat :=
  ts / 86400000

/-- A per-day accumulator entry of the `day` dict in
`cg_ohlc_utc_daily_cached`. -/
structure DayAgg where
  high : Rat
  low : Rat
  close : Rat
  last_ts : Nat
deriving Repr, DecidableEq

/-- The entry created on the first tick of a day. -/
def initAgg (t : Tick) : DayAgg :=
  ⟨t.h, t.l, t.c, t.ts⟩

/-- One loop iteration of `cg_ohlc_utc_daily_cached`: fold tick `t` with
day key `key` into the insertion-ordered day map. -/
def updateDay (m : List (Nat × DayAgg)) (key : Nat) (t : Tick) : List (Nat × DayAgg) :=
  match m with
  | [] => [(key, initAgg t)]
  | (k, a) :: rest =>
    if k = key then
      let a1 := { a with high := max a.high t.h, low := min a.low t.l }
      let a2 := if t.ts > a1.last_ts then { a1 with close := t.c, last_ts := t.ts } else a1
      (k, a2) :: rest
    else
      (k, a) :: updateDay rest key t

/-- An output row of the daily aggregation (`time` is the day number). -/
structure Row where
  time : Nat
  high : Rat
  low : Rat
  close : Rat
  range : Rat
deriving Repr, DecidableEq

/-- Insert into a sorted list of day keys (helper for Python `sorted`). -/
def insertSorted (x : Nat) : List Nat → List Nat
  | [] => [x]
  | y :: ys => if x ≤ y then x :: y :: ys else y :: insertSorted x ys

/-- Python `sorted` on day keys. -/
def sortNat (l : List Nat) : List Nat :=
  l.foldr insertSorted []

/-- `cg_ohlc_utc_daily_cached`: group raw ticks by UTC day, reduce each day
(`high = max`, `low = min`, `close` from the strictly latest timestamp),
drop the current day `today`, sort ascending, and emit rows. -/
def cg_ohlc_utc_daily (today : Nat) (raw : List Tick) : List Row :=
  let day := raw.foldl (fun m t => updateDay m (dayOf t.ts) t) []
  let keys := sortNat ((day.map Prod.fst).filter (fun k => k ≠ today))
  keys.filterMap (fun k =>
    (day.lookup k).map (fun a => ⟨k, a.high, a.low, a.close, a.high - a.low⟩))

/-- A raw ccxt OHLCV bar `[ts, o, h, l, c, v]`. -/
structure OhlcvBar where
  ts : Nat
  o : Rat
  h : Rat
  l : Rat
  c : Rat
  v : Rat
deriving Repr, DecidableEq

/-- `fetch_ohlcv_ccxt`: require at least 15 raw bars, drop the last
(still-forming) bar, require at least 12 remaining, and build rows
(`time` keeps the bar's timestamp). -/
def fetch_ohlcv_ccxt (ohlcv : List OhlcvBar) : Option (List Candle) :=
  if ohlcv.length < 15 then none
  else
    let closed := ohlcv.dropLast
    if closed.length < 12 then none
    else some (closed.map (fun b => ⟨b.ts, b.h, b.l, b.c, b.h - b.l⟩))

/-- The period index of a millisecond timestamp for period length `p`. -/
def periodOf (p ts : Nat) : Nat :=
  ts / p

/-- What one attempt of the `cg_get` retry loop observes: a successful
JSON payload, an HTTP 429 status, or a raised `RequestException`
(payloads and exceptions are abstracted as naturals). -/
inductive Outcome
  | ok (v : Nat)
  | rate429
  | exc (e : Nat)
deriving Repr, DecidableEq

/-- What `cg_get` can raise: a re-raised `RequestException`, or the
generic `RuntimeError("CoinGecko Fehler (unbekannt)")`. -/
inductive CgError
  | fromExc (e : Nat)
  | unknown
deriving Repr, DecidableEq

/-- An execution of `cg_get`: its result, the retry sleeps it performed
(attempt number paired with the slept duration `backoff * attempt`), and
how many attempts it made. -/
structure CgRun where
  result : Except CgError Nat
  sleeps : List (Nat × Rat)
  attempts : Nat
deriving Repr

/-- What `cg_get` raises after the loop: the last recorded exception, or
the generic `RuntimeError` when none was recorded. -/
def errOf : Option Nat → CgError
  | some e => .fromExc e
  | none => .unknown

/-- The `for attempt in range(1, max_retries + 1)` loop of `cg_get`, over
the list of attempt numbers still to run, with the per-attempt upstream
behaviour given by `oc`.  A 429 sleeps `backoff * attempt` and continues;
an exception on the final attempt (`attempt == max_retries`) is re-raised
at once, otherwise it is recorded as `last_exc` and the loop sleeps and
retries; when the loop ends the last exception (or the generic error when
none was recorded) is raised. -/
def cgGetLoop (oc : Nat → Outcome) (backoff : Rat) (max_retries : Nat) :
    List Nat → Option Nat → List (Nat × Rat) → Nat → CgRun
  | [], last_exc, sleeps, made => ⟨.error (errOf last_exc), sleeps, made⟩
  | a :: rest, last_exc, sleeps, made =>
    match oc a with
    | .ok v => ⟨.ok v, sleeps, made + 1⟩
    | .rate429 =>
      cgGetLoop oc backoff max_retries rest last_exc
        (sleeps ++ [(a, backoff * a)]) (made + 1)
    | .exc e =>
      if a = max_retries then ⟨.error (.fromExc e), sleeps, made + 1⟩
      else
        cgGetLoop oc backoff max_retries rest (some e)
          (sleeps ++ [(a, backoff * a)]) (made + 1)

/-- `cg_get` as a whole: run the retry loop over attempts
`1, ..., max_retries`. -/
def cg_get_model (oc : Nat → Outcome) (backoff : Rat) (max_retries : Nat) : CgRun :=
  cgGetLoop oc backoff max_retries (List.range' 1 max_retries) none [] 0

/-- The value of `last_exc` after folding the given attempts over an
initial value: the exception of the latest attempt that raised one. -/
def lastExcIn (oc : Nat → Outcome) (le : Option Nat) (attempts : List Nat) : Option Nat :=
  attempts.foldl (fun acc a => match oc a with | .exc e => some e | _ => acc) le

/-- The error `cg_get` raises when every attempt fails: the last recorded
exception, else the generic error. -/
def surfacedError (oc : Nat → Outcome) (max_retries : Nat) : CgError :=
  errOf (lastExcIn oc none (List.range' 1 max_retries))

/-- Python `str.upper()`: upper-case each character (structurally, so the
kernel can evaluate it; extensionally `String.toUpper`). -/
def upperStr (s : String) : String :=
  ⟨s.data.map Char.toUpper⟩

/-- Python `s[:n]`: the first `n` characters (structurally, so the kernel
can evaluate it; extensionally `String.take`). -/
def strTake (s : String) (n : Nat) : String :=
  ⟨s.data.take n⟩

/-- The error text `main` appends to the `errors` list on a UTC-fallback
failure: `f"{base}: UTC error - {type(e).__name__} - {str(e)[:160]}"`. -/
def utc_error_entry (base ename emsg : String) : String :=
  base ++ ": UTC error - " ++ ename ++ " - " ++ strTake emsg 160

/-- `sub` occurs as a contiguous substring of `s`. -/
def containsStr (s sub : String) : Prop :=
  ∃ pre post, s = pre ++ sub ++ post

/-- A ccxt market record, with the `dict.get` defaults of
`_is_usdt_linear_perp_market` already applied (`quote`/`type`/`settle`
default to `""`, `active` to `True`, the remaining flags to `False`). -/
structure Market where
  base : String
  quote : String
  active : Bool
  swap : Bool
  future : Bool
  contract : Bool
  mtype : String
  settle : String
  linear : Bool
deriving Repr, DecidableEq

/-- `_is_usdt_linear_perp_market(m)`.  Note the source ends with
`if linear: return True` followed by `return True`. -/
def _is_usdt_linear_perp_market (m : Market) : Bool :=
  let linear := m.linear || (m.settle == "USDT")
  if !m.active then false
  else if m.quote != "USDT" then false
  else if !(m.swap || m.future || m.contract || m.mtype == "swap" || m.mtype == "future")
    then false
  else if linear then true
  else true

/-- `sub` occurs as a contiguous character run of `hay` (executable). -/
def containsSub (hay needle : List Char) : Bool :=
  match hay with
  | [] => needle.isEmpty
  | _ :: t => needle.isPrefixOf hay || containsSub t needle

/-- The `score` closure of `find_ccxt_futures_symbol`. -/
def marketScore (sym : String) (m : Market) : Nat :=
  (if containsSub sym.data ":USDT".data then 3 else 0)
  + (if containsSub (upperStr sym).data "SWAP".data then 1 else 0)
  + (if m.swap then 2 else 0)
  + (if m.linear then 1 else 0)

/-- Stable insertion of a candidate into a score-descending list
(candidates already placed with a score ≥ the new one stay in front),
modelling Python's stable `sort(key=score, reverse=True)`. -/
def insertByScoreDesc (x : String × Market) :
    List (String × Market) → List (String × Market)
  | [] => [x]
  | y :: ys =>
    if marketScore x.1 x.2 ≤ marketScore y.1 y.2 then y :: insertByScoreDesc x ys
    else x :: y :: ys

/-- Stable descending sort of the candidate list by `marketScore`. -/
def sortByScoreDesc (l : List (String × Market)) : List (String × Market) :=
  l.foldr insertByScoreDesc []

/-- `find_ccxt_futures_symbol`: filter the market dict to candidates whose
base matches and that pass `_is_usdt_linear_perp_market`, sort by score
descending, and return the best symbol (or `None`). -/
def find_ccxt_futures_symbol (markets : List (String × Market)) (base_sym : String) :
    Option String :=
  let candidates := markets.filter (fun p =>
    (upperStr p.2.base == upperStr base_sym) && _is_usdt_linear_perp_market p.2)
  match sortByScoreDesc candidates with
  | [] => none
  | c :: _ => some c.1

/-- A 16-candle series for the breakout scenario: candles 0–10 are wide
(range 100), candle 11 is the narrow setup candle (high 110, low 90),
candles 12–15 widen again with closes 105, 115, 95, 130. -/
def c3series : List Candle :=
  [⟨0, 150, 50, 100, 100⟩, ⟨1, 150, 50, 100, 100⟩, ⟨2, 150, 50, 100, 100⟩,
   ⟨3, 150, 50, 100, 100⟩, ⟨4, 150, 50, 100, 100⟩, ⟨5, 150, 50, 100, 100⟩,
   ⟨6, 150, 50, 100, 100⟩, ⟨7, 150, 50, 100, 100⟩, ⟨8, 150, 50, 100, 100⟩,
   ⟨9, 150, 50, 100, 100⟩, ⟨10, 150, 50, 100, 100⟩,
   ⟨11, 110, 90, 100, 20⟩,
   ⟨12, 130, 100, 105, 30⟩, ⟨13, 140, 100, 115, 40⟩,
   ⟨14, 150, 100, 95, 50⟩, ⟨15, 160, 100, 130, 60⟩]


/-- Fifteen raw bars for period length 10 whose final two bars both fall in
the period of "now" = 155 (period start 150): dropping only the last bar
leaves a bar of the still-open period in the output. -/
def c4bars : List OhlcvBar :=
  (List.range 13).map (fun i => ⟨i * 10, 1, 2, 1, 1, 0⟩) ++
    [⟨150, 1, 2, 1, 1, 0⟩, ⟨150, 1, 2, 1, 1, 0⟩]

/-! ## Helper lemmas -/

theorem getD_map_range (f : Nat → Bool) (n i : Nat) :
    ((List.range n).map f).getD i false = if i < n then f i else false := by
  by_cases h : i < n
  · rw [if_pos h, List.getD_eq_getElem?_getD, List.getElem?_map,
      List.getElem?_range h]
    rfl
  · rw [if_neg h, List.getD_eq_getElem?_getD, List.getElem?_eq_none, Option.getD_none]
    simp only [List.length_map, List.length_range]
    omega

theorem compute_nr_flags_nr4_getD (closed : List Candle) (i : Nat) :
    (compute_nr_flags closed).1.getD i false =
      if i < closed.length then nr4flag (closed.map Candle.range) i else false := by
  simp only [compute_nr_flags]
  exact getD_map_range _ _ _

theorem compute_nr_flags_nr7_getD (closed : List Candle) (i : Nat) :
    (compute_nr_flags closed).2.1.getD i false =
      if i < closed.length then nr7flag (closed.map Candle.range) i else false := by
  simp only [compute_nr_flags]
  exact getD_map_range _ _ _

theorem compute_nr_flags_nr10_getD (closed : List Candle) (i : Nat) :
    (compute_nr_flags closed).2.2.getD i false =
      if i < closed.length then nr10flag (closed.map Candle.range) i else false := by
  simp only [compute_nr_flags]
  exact getD_map_range _ _ _

/-! ## C1: suppression makes the three flags mutually exclusive -/

/-- C1: at every index, if the raw NR10 window test holds then the NR7 and
NR4 flags computed by `compute_nr_flags` are false; if NR10 fails but the
raw NR7 window test holds, the NR4 flag is false; and at most one of the
three flags is set. -/
theorem nr_flags_mutually_exclusive (closed : List Candle) (i : Nat) :
    (rawNR (closed.map Candle.range) 10 i = true →
      (compute_nr_flags closed).2.1.getD i false = false ∧
      (compute_nr_flags closed).1.getD i false = false) ∧
    (rawNR (closed.map Candle.range) 10 i = false →
      rawNR (closed.map Candle.range) 7 i = true →
      (compute_nr_flags closed).1.getD i false = false) ∧
    ¬((compute_nr_flags closed).1.getD i false = true ∧
      (compute_nr_flags closed).2.1.getD i false = true) ∧
    ¬((compute_nr_flags closed).1.getD i false = true ∧
      (compute_nr_flags closed).2.2.getD i false = true) ∧
    ¬((compute_nr_flags closed).2.1.getD i false = true ∧
      (compute_nr_flags closed).2.2.getD i false = true) := by
  rw [compute_nr_flags_nr4_getD, compute_nr_flags_nr7_getD, compute_nr_flags_nr10_getD]
  by_cases h : i < closed.length
  · simp only [if_pos h, nr4flag, nr7flag, nr10flag]
    cases h10 : rawNR (closed.map Candle.range) 10 i <;>
      cases h7 : rawNR (closed.map Candle.range) 7 i <;>
        cases h4 : rawNR (closed.map Candle.range) 4 i <;> simp
  · simp only [if_neg h]
    simp

/-! ## C10: series shorter than 12 candles yield the no-setup result -/

/-- C10: for every candle series with fewer than 12 candles,
`simulate_breakouts_since_last_nr` returns the no-setup tuple
`("", "", "-", "-", 0, 0, None, None)`. -/
theorem simulate_short_series_no_setup (closed : List Candle)
    (h : closed.length < 12) :
    simulate_breakouts_since_last_nr closed = noSetupResult := by
  unfold simulate_breakouts_since_last_nr
  rw [if_pos h]

/-- Witness for C10 at a concrete 4-candle series whose NR4 flag is true at
index 3 (all ranges tie, so index 3 is a narrowest-of-4): the result is
still the no-setup tuple. -/
theorem simulate_short_series_no_setup_witness :
    ([⟨0, 2, 1, 1, 1⟩, ⟨1, 2, 1, 1, 1⟩, ⟨2, 2, 1, 1, 1⟩, ⟨3, 2, 1, 1, 1⟩] :
        List Candle).length < 12 ∧
    (compute_nr_flags [⟨0, 2, 1, 1, 1⟩, ⟨1, 2, 1, 1, 1⟩, ⟨2, 2, 1, 1, 1⟩,
        ⟨3, 2, 1, 1, 1⟩]).1.getD 3 false = true ∧
    simulate_breakouts_since_last_nr [⟨0, 2, 1, 1, 1⟩, ⟨1, 2, 1, 1, 1⟩,
        ⟨2, 2, 1, 1, 1⟩, ⟨3, 2, 1, 1, 1⟩] = noSetupResult :=
  ⟨by decide, by decide,
    simulate_short_series_no_setup _ (by decide)⟩

/-! ## C3: the breakout scenario with closes 105, 115, 95, 130 -/

/-- Counterexample to C3 as stated: `c3series` has its most recent NR setup
at the candle with high 110 and low 90 (mid 100) and forward closes
105, 115, 95, 130, yet the tracker reports no DOWN event at close 95
(95 does not close strictly below the low 90): `down_count` is 0, not 1. -/
theorem breakout_scenario_counterexample :
    (simulate_breakouts_since_last_nr c3series).rh = some 110 ∧
    (simulate_breakouts_since_last_nr c3series).rl = some 90 ∧
    (c3series.drop 12).map Candle.close = [105, 115, 95, 130] ∧
    (simulate_breakouts_since_last_nr c3series).down_count = 0 ∧
    ¬((simulate_breakouts_since_last_nr c3series).down_count = 1) := by
  decide

/-- C3 amended: on `c3series` (setup high 110, low 90, forward closes
105, 115, 95, 130) the tracker fires UP#1 at close 115, re-arms the UP
side at close 95 (below mid 100, and no DOWN event since 95 ≥ low 90),
fires UP#2 at close 130, and reports final state UP, tag UP#2,
up_count 2 and down_count 0. -/
theorem breakout_scenario_amended :
    (c3series.drop 12).map Candle.close = [105, 115, 95, 130] ∧
    simulate_breakouts_since_last_nr c3series =
      ⟨some 11, "NR10", "UP", "UP#2", 2, 0, some 110, some 90⟩ := by
  decide


/-! ## C9: market selection and the vacuous linearity check -/

/-- C9 (code bug): `find_ccxt_futures_symbol` selects a market that is
active, base-matching, USDT-quoted and a swap, but neither has the
`linear` flag nor settles in USDT — the final
`if linear: return True / return True` of `_is_usdt_linear_perp_market`
accepts every market that reaches it, so linearity is never enforced. -/
theorem find_symbol_accepts_nonlinear :
    find_ccxt_futures_symbol
      [("BTC/USDT:USD",
        ⟨"BTC", "USDT", true, true, false, false, "swap", "USD", false⟩)] "BTC"
      = some "BTC/USDT:USD" ∧
    (⟨"BTC", "USDT", true, true, false, false, "swap", "USD", false⟩ : Market).linear
      = false ∧
    ¬((⟨"BTC", "USDT", true, true, false, false, "swap", "USD", false⟩ : Market).settle
      = "USDT") := by
  decide

/-! ## C8: the API key is not redacted from surfaced error text -/

set_option maxRecDepth 4000 in
/-- C8 (code bug): the error entry `main` builds from a transport-layer
exception surfaces `str(e)[:160]` verbatim, so an exception message that
contains the API key value (as an `HTTPError` for a `cg_get` URL does,
since `cg_get` injects the key into the request parameters) puts the key
into the `errors` list as a substring; nothing redacts it. -/
theorem utc_error_entry_leaks_key :
    containsStr
      (utc_error_entry "BTC" "HTTPError"
        "404 Client Error: Not Found for url: /api/v3/coins/btc/ohlc?vs_currency=usd&x_cg_demo_api_key=SECRETKEY123")
      "SECRETKEY123" :=
  ⟨"BTC: UTC error - HTTPError - 404 Client Error: Not Found for url: /api/v3/coins/btc/ohlc?vs_currency=usd&x_cg_demo_api_key=",
   "", by decide⟩

/-! ## C5: close on timestamp ties -/

/-- Counterexample to C5 as stated: two ticks of the same UTC day with the
same timestamp, closes 5 then 7.  The aggregation keeps the close of the
EARLIER-inserted tick (the update guard is strict: `ts > last_ts`), so the
day's close is 5, not the later-inserted 7 the claim requires. -/
theorem cg_daily_tie_counterexample :
    cg_ohlc_utc_daily 1 [⟨5, 1, 9, 1, 5⟩, ⟨5, 1, 9, 1, 7⟩] = [⟨0, 9, 1, 5, 8⟩] ∧
    ¬((cg_ohlc_utc_daily 1 [⟨5, 1, 9, 1, 5⟩, ⟨5, 1, 9, 1, 7⟩]).map Row.close = [7]) := by
  decide

/-- C5 amended: when two input ticks share the same timestamp (hence the
same UTC day), the daily aggregation takes the day's close from the
EARLIER-inserted tick — first write wins on timestamp ties — while high
and low still combine both ticks. -/
theorem cg_daily_tie_amended (today : Nat) (t1 t2 : Tick) (hts : t1.ts = t2.ts)
    (hday : dayOf t1.ts ≠ today) :
    cg_ohlc_utc_daily today [t1, t2] =
      [⟨dayOf t1.ts, max t1.h t2.h, min t1.l t2.l, t1.c,
        max t1.h t2.h - min t1.l t2.l⟩] := by
  obtain ⟨ts1, o1, h1, l1, c1⟩ := t1
  obtain ⟨ts2, o2, h2, l2, c2⟩ := t2
  simp only at hts hday ⊢
  subst hts
  simp [cg_ohlc_utc_daily, updateDay, initAgg, sortNat, insertSorted,
    List.lookup, hday, lt_irrefl]

/-- Witness for C5's amended theorem at ticks (ts 5, close 5) and
(ts 5, close 7) on day 0 with `today = 1`: the emitted close is 5. -/
theorem cg_daily_tie_amended_witness :
    (⟨5, 1, 9, 1, 5⟩ : Tick).ts = (⟨5, 2, 8, 2, 7⟩ : Tick).ts ∧
    dayOf (5 : Nat) ≠ 1 ∧
    cg_ohlc_utc_daily 1 [⟨5, 1, 9, 1, 5⟩, ⟨5, 2, 8, 2, 7⟩] = [⟨0, 9, 1, 5, 8⟩] :=
  ⟨rfl, by decide,
    (cg_daily_tie_amended 1 ⟨5, 1, 9, 1, 5⟩ ⟨5, 2, 8, 2, 7⟩ rfl (by decide)).trans
      (by decide)⟩

/-! ## C4: the currently-open period and the returned series -/

theorem mem_insertSorted (x a : Nat) (l : List Nat) :
    a ∈ insertSorted x l ↔ a = x ∨ a ∈ l := by
  induction l with
  | nil => simp [insertSorted]
  | cons y ys ih =>
    simp only [insertSorted]
    split
    · simp [List.mem_cons]
    · simp only [List.mem_cons, ih]
      tauto

theorem mem_sortNat (a : Nat) (l : List Nat) : a ∈ sortNat l ↔ a ∈ l := by
  induction l with
  | nil => simp [sortNat]
  | cons x xs ih =>
    show a ∈ insertSorted x (sortNat xs) ↔ _
    rw [mem_insertSorted, ih, List.mem_cons]

theorem cg_daily_no_today (today : Nat) (raw : List Tick) :
    ∀ r ∈ cg_ohlc_utc_daily today raw, r.time ≠ today := by
  intro r hr
  simp only [cg_ohlc_utc_daily] at hr
  rw [List.mem_filterMap] at hr
  obtain ⟨k, hk, hg⟩ := hr
  rw [mem_sortNat, List.mem_filter] at hk
  obtain ⟨-, hkt⟩ := hk
  obtain ⟨a, -, ha⟩ := Option.map_eq_some'.1 hg
  rw [← ha]
  simpa using hkt

theorem fetch_ccxt_no_current_period (p now : Nat) (bars : List OhlcvBar)
    (rows : List Candle) (hp : 0 < p)
    (hsort : List.Pairwise (· < ·) (bars.map OhlcvBar.ts))
    (hwf : ∀ b ∈ bars, p ∣ b.ts ∧ b.ts ≤ now)
    (hfetch : fetch_ohlcv_ccxt bars = some rows) :
    ∀ c ∈ rows, periodOf p c.time ≠ periodOf p now := by
  intro c hc hper
  simp only [fetch_ohlcv_ccxt] at hfetch
  split at hfetch
  · exact absurd hfetch (by simp)
  · split at hfetch
    · exact absurd hfetch (by simp)
    · rcases List.eq_nil_or_concat bars with rfl | ⟨l', lastb, rfl⟩
      · simp_all
      · obtain rfl := Option.some.inj hfetch
        rw [List.concat_eq_append] at hsort hwf hc
        rw [List.dropLast_concat] at hc
        obtain ⟨b, hb, rfl⟩ := List.mem_map.1 hc
        have htb : b.ts < lastb.ts := by
          rw [List.map_append, List.pairwise_append] at hsort
          exact hsort.2.2 b.ts (List.mem_map_of_mem _ hb) lastb.ts (by simp)
        obtain ⟨hdb, -⟩ := hwf b (List.mem_append_left _ hb)
        obtain ⟨hda, hla⟩ := hwf lastb (List.mem_append_right _ (by simp))
        obtain ⟨mb, hmb⟩ := hdb
        obtain ⟨ma, hma⟩ := hda
        simp only [periodOf] at hper
        have hmbq : mb = now / p := by
          rw [hmb, Nat.mul_div_cancel_left _ hp] at hper
          exact hper
        have h2 : mb < ma := by
          have : p * mb < p * ma := by rw [← hmb, ← hma]; exact htb
          exact Nat.lt_of_mul_lt_mul_left this
        have key : p * mb + p ≤ p * ma := by
          calc p * mb + p = p * (mb + 1) := by ring
          _ ≤ p * ma := Nat.mul_le_mul_left p h2
        have hmod : now % p < p := Nat.mod_lt now hp
        have hsplit : now = p * (now / p) + now % p := (Nat.div_add_mod now p).symm
        rw [← hmbq] at hsplit
        omega

/-- Counterexample to C4 as stated: for period length 10 and now = 155,
`c4bars`'s last timestamp (150) is ≥ the current period start
(155 / 10 * 10 = 150), yet the series `fetch_ohlcv_ccxt` returns still
contains a bar of the current period — only the final bar is dropped, and
`c4bars` has two bars with timestamp 150. -/
theorem current_period_counterexample :
    (c4bars.getLast?.map (fun b => b.ts)).getD 0 ≥ 155 / 10 * 10 ∧
    fetch_ohlcv_ccxt c4bars ≠ none ∧
    ((fetch_ohlcv_ccxt c4bars).getD []).any
      (fun c => periodOf 10 c.time == periodOf 10 155) = true := by
  decide

/-- C4 amended: the daily aggregation never emits a row for the current
UTC day, for every input; and the ccxt adapter's returned series contains
no bar of the currently-open period provided the raw bars have strictly
increasing, period-aligned timestamps no later than now (so the open
period can only appear as the final bar, which is dropped). -/
theorem closed_candles_exclude_current_period :
    (∀ today raw r, r ∈ cg_ohlc_utc_daily today raw → r.time ≠ today) ∧
    (∀ p now bars rows, 0 < p →
      List.Pairwise (· < ·) (bars.map OhlcvBar.ts) →
      (∀ b ∈ bars, p ∣ b.ts ∧ b.ts ≤ now) →
      fetch_ohlcv_ccxt bars = some rows →
      ∀ c ∈ rows, periodOf p c.time ≠ periodOf p now) :=
  ⟨fun today raw r hr => cg_daily_no_today today raw r hr,
   fun p now bars rows hp hs hw hf => fetch_ccxt_no_current_period p now bars rows hp hs hw hf⟩

/-! ## C7: the cg_get retry loop -/

theorem cgGetLoop_attempts_le (oc : Nat → Outcome) (b : Rat) (m : Nat) :
    ∀ (l : List Nat) (le : Option Nat) (sl : List (Nat × Rat)) (made : Nat),
      (cgGetLoop oc b m l le sl made).attempts ≤ made + l.length := by
  intro l
  induction l with
  | nil => intro le sl made; simp [cgGetLoop]
  | cons a rest ih =>
    intro le sl made
    simp only [cgGetLoop, List.length_cons]
    cases oc a with
    | ok v => dsimp only; omega
    | rate429 => exact le_trans (ih _ _ _) (by omega)
    | exc e =>
      dsimp only
      split
      · dsimp only; omega
      · exact le_trans (ih _ _ _) (by omega)

theorem cgGetLoop_allfail (oc : Nat → Outcome) (b : Rat) (m : Nat) :
    ∀ (n a : Nat) (le : Option Nat) (sl : List (Nat × Rat)) (made : Nat),
      a + n = m + 1 →
      (∀ k, a ≤ k → k ≤ m → ∀ v, oc k ≠ .ok v) →
      (cgGetLoop oc b m (List.range' a n) le sl made).result
          = .error (errOf (lastExcIn oc le (List.range' a n))) ∧
      (cgGetLoop oc b m (List.range' a n) le sl made).attempts = made + n ∧
      (∀ x ∈ sl, x ∈ (cgGetLoop oc b m (List.range' a n) le sl made).sleeps) ∧
      (∀ k, a ≤ k → k ≤ m → oc k = .rate429 →
        (k, b * k) ∈ (cgGetLoop oc b m (List.range' a n) le sl made).sleeps) := by
  intro n
  induction n with
  | zero =>
    intro a le sl made hsum hfail
    refine ⟨rfl, rfl, fun x hx => hx, fun k hk1 hk2 _ => ?_⟩
    omega
  | succ n ih =>
    intro a le sl made hsum hfail
    have ham : a ≤ m := by omega
    rw [List.range'_succ]
    simp only [cgGetLoop, lastExcIn, List.foldl_cons]
    cases hoa : oc a with
    | ok v => exact absurd hoa (by have := hfail a le_rfl ham v; simp_all)
    | rate429 =>
      dsimp only
      obtain ⟨hres, hatt, hmono, hrate⟩ :=
        ih (a + 1) le (sl ++ [(a, b * a)]) (made + 1) (by omega)
          (fun k hk1 hk2 v => hfail k (by omega) hk2 v)
      rw [lastExcIn] at hres
      refine ⟨hres, by rw [hatt]; omega,
        fun x hx => hmono x (List.mem_append_left _ hx), fun k hk1 hk2 hk429 => ?_⟩
      rcases Nat.eq_or_lt_of_le hk1 with rfl | hlt
      · exact hmono _ (List.mem_append_right _ (by simp))
      · exact hrate k (by omega) hk2 hk429
    | exc e =>
      dsimp only
      by_cases ham' : a = m
      · subst ham'
        have hn0 : n = 0 := by omega
        subst hn0
        rw [if_pos rfl]
        refine ⟨by simp [errOf], by simp, fun x hx => hx,
          fun k hk1 hk2 hk429 => ?_⟩
        have : k = a := by omega
        subst this
        rw [hoa] at hk429
        exact absurd hk429 (by simp)
      · rw [if_neg ham']
        obtain ⟨hres, hatt, hmono, hrate⟩ :=
          ih (a + 1) (some e) (sl ++ [(a, b * a)]) (made + 1) (by omega)
            (fun k hk1 hk2 v => hfail k (by omega) hk2 v)
        rw [lastExcIn] at hres
        refine ⟨hres, by rw [hatt]; omega,
          fun x hx => hmono x (List.mem_append_left _ hx), fun k hk1 hk2 hk429 => ?_⟩
        rcases Nat.eq_or_lt_of_le hk1 with rfl | hlt
        · exact hmono _ (List.mem_append_right _ (by simp))
        · exact hrate k (by omega) hk2 hk429

/-- Counterexample to C7 as stated: with two attempts, attempt 1 raising
exception 7 and attempt 2 receiving a 429, every attempt fails and the
LAST error encountered is the attempt-2 rate limit, yet `cg_get` raises
the attempt-1 exception (a 429 never sets `last_exc`). -/
theorem cg_get_last_error_counterexample :
    (fun a => if a = 1 then Outcome.exc 7 else Outcome.rate429) 1 = Outcome.exc 7 ∧
    (fun a => if a = 1 then Outcome.exc 7 else Outcome.rate429) 2 = Outcome.rate429 ∧
    (cg_get_model (fun a => if a = 1 then Outcome.exc 7 else Outcome.rate429) 2 2).result
      = Except.error (CgError.fromExc 7) ∧
    (cg_get_model (fun _ => Outcome.rate429) 2 2).result
      = Except.error CgError.unknown := by
  refine ⟨rfl, rfl, ?_, ?_⟩ <;>
    simp [cg_get_model, cgGetLoop, errOf, List.range']

/-- C7 amended: `cg_get` makes at most `max_retries` attempts; when every
attempt fails it makes exactly `max_retries` attempts, sleeps
`backoff * attempt` for every attempt that received a 429, and raises the
LAST EXCEPTION encountered — a 429 is never recorded as an error, so when
no attempt raised an exception the generic
`RuntimeError("CoinGecko Fehler (unbekannt)")` is raised instead. -/
theorem cg_get_retry_amended :
    (∀ (oc : Nat → Outcome) (b : Rat) (m : Nat),
      (cg_get_model oc b m).attempts ≤ m) ∧
    (∀ (oc : Nat → Outcome) (b : Rat) (m : Nat),
      (∀ k, 1 ≤ k → k ≤ m → ∀ v, oc k ≠ .ok v) →
      (cg_get_model oc b m).result = .error (surfacedError oc m) ∧
      (cg_get_model oc b m).attempts = m ∧
      (∀ k, 1 ≤ k → k ≤ m → oc k = .rate429 →
        (k, b * k) ∈ (cg_get_model oc b m).sleeps)) := by
  constructor
  · intro oc b m
    have := cgGetLoop_attempts_le oc b m (List.range' 1 m) none [] 0
    simpa [cg_get_model] using this
  · intro oc b m hfail
    obtain ⟨hres, hatt, -, hrate⟩ :=
      cgGetLoop_allfail oc b m m 1 none [] 0 (by omega) hfail
    exact ⟨hres, by simpa using hatt, hrate⟩

/-! ## C6: aggregating an already-daily series is the identity -/

theorem updateDay_not_mem (key : Nat) (t : Tick) :
    ∀ m : List (Nat × DayAgg), key ∉ m.map Prod.fst →
      updateDay m key t = m ++ [(key, initAgg t)] := by
  intro m
  induction m with
  | nil => intro _; rfl
  | cons p rest ih =>
    intro h
    obtain ⟨k, a⟩ := p
    simp only [List.map_cons, List.mem_cons, not_or] at h
    obtain ⟨hk, hrest⟩ := h
    simp only [updateDay]
    rw [if_neg (fun hh => hk hh.symm), ih hrest]
    rfl

theorem foldl_updateDay_distinct :
    ∀ (ticks : List Tick) (m : List (Nat × DayAgg)),
      (ticks.map (fun t => dayOf t.ts)).Pairwise (· ≠ ·) →
      (∀ t ∈ ticks, dayOf t.ts ∉ m.map Prod.fst) →
      ticks.foldl (fun acc t => updateDay acc (dayOf t.ts) t) m
        = m ++ ticks.map (fun t => (dayOf t.ts, initAgg t)) := by
  intro ticks
  induction ticks with
  | nil => intro m _ _; simp
  | cons t ts ih =>
    intro m hpw hdisj
    simp only [List.map_cons, List.pairwise_cons] at hpw
    obtain ⟨hhead, htail⟩ := hpw
    simp only [List.foldl_cons, List.map_cons]
    rw [updateDay_not_mem _ _ m (hdisj t (by simp))]
    rw [ih (m ++ [(dayOf t.ts, initAgg t)]) htail ?_]
    · simp
    · intro u hu
      have h1 : dayOf u.ts ∉ m.map Prod.fst := hdisj u (List.mem_cons_of_mem _ hu)
      have h2 : dayOf t.ts ≠ dayOf u.ts := hhead (dayOf u.ts) (List.mem_map_of_mem _ hu)
      simp only [List.map_append, List.mem_append]
      rintro (hc | hc)
      · exact h1 hc
      · simp only [List.map_cons, List.map_nil, List.mem_singleton] at hc
        exact h2 hc.symm

theorem sortNat_eq_self : ∀ l : List Nat, l.Pairwise (· ≤ ·) → sortNat l = l := by
  intro l
  induction l with
  | nil => intro _; rfl
  | cons x xs ih =>
    intro h
    show insertSorted x (sortNat xs) = x :: xs
    rw [ih (List.pairwise_cons.1 h).2]
    cases xs with
    | nil => rfl
    | cons y ys =>
      simp only [insertSorted]
      rw [if_pos ((List.pairwise_cons.1 h).1 y (by simp))]

theorem filterMap_lookup_eq_map (f : Nat → DayAgg → Row) (full : List (Nat × DayAgg)) :
    ∀ ps : List (Nat × DayAgg),
      (∀ k ∈ ps.map Prod.fst, full.lookup k = ps.lookup k) →
      (ps.map Prod.fst).Pairwise (· ≠ ·) →
      (ps.map Prod.fst).filterMap (fun k => (full.lookup k).map (f k)) =
        ps.map (fun p => f p.1 p.2) := by
  intro ps
  induction ps with
  | nil => intro _ _; rfl
  | cons p rest ih =>
    intro hagree hpw
    obtain ⟨k0, a0⟩ := p
    simp only [List.map_cons, List.pairwise_cons] at hpw
    obtain ⟨hhead, htail⟩ := hpw
    have h0 : full.lookup k0 = some a0 := by
      rw [hagree k0 (by simp)]
      simp [List.lookup]
    have hagree' : ∀ k ∈ rest.map Prod.fst, full.lookup k = rest.lookup k := by
      intro k hk
      have hne : k0 ≠ k := hhead k hk
      rw [hagree k (by simp [hk])]
      show List.lookup k ((k0, a0) :: rest) = rest.lookup k
      simp only [List.lookup]
      rw [show (k == k0) = false from beq_eq_false_iff_ne.2 (Ne.symm hne)]
    simp only [List.map_cons, List.filterMap_cons, h0, Option.map_some']
    rw [ih hagree' htail]

/-- C6: for a tick list that is already one candle per past UTC day
(strictly ascending days, none equal to `today`), the daily aggregation
returns exactly that series: same length, same high/low/close values,
range = high − low, same order. -/
theorem cg_daily_idempotent (today : Nat) (ticks : List Tick)
    (hsort : List.Pairwise (· < ·) (ticks.map (fun t => dayOf t.ts)))
    (htoday : ∀ t ∈ ticks, dayOf t.ts ≠ today) :
    cg_ohlc_utc_daily today ticks =
      ticks.map (fun t => ⟨dayOf t.ts, t.h, t.l, t.c, t.h - t.l⟩) := by
  have hne : (ticks.map (fun t => dayOf t.ts)).Pairwise (· ≠ ·) :=
    hsort.imp (fun h => Nat.ne_of_lt h)
  simp only [cg_ohlc_utc_daily]
  rw [foldl_updateDay_distinct ticks [] hne (by simp)]
  rw [List.nil_append]
  have hkeys : (ticks.map (fun t => (dayOf t.ts, initAgg t))).map Prod.fst
      = ticks.map (fun t => dayOf t.ts) := by
    rw [List.map_map]
    rfl
  rw [hkeys]
  rw [List.filter_eq_self.2 ?_]
  · rw [sortNat_eq_self _ (hsort.imp (fun h => Nat.le_of_lt h))]
    have := filterMap_lookup_eq_map
      (fun k a => ⟨k, a.high, a.low, a.close, a.high - a.low⟩)
      (ticks.map (fun t => (dayOf t.ts, initAgg t)))
      (ticks.map (fun t => (dayOf t.ts, initAgg t)))
      (fun _ _ => rfl) (by rw [hkeys]; exact hne)
    rw [hkeys] at this
    rw [this, List.map_map]
    rfl
  · intro k hk
    obtain ⟨t, ht, rfl⟩ := List.mem_map.1 hk
    simpa using htoday t ht

/-- Witness for C6 at a two-tick series that is already daily (days 0 and
1, `today` = 2): the aggregation returns it unchanged. -/
theorem cg_daily_idempotent_witness :
    List.Pairwise (· < ·) ([⟨0, 1, 3, 1, 2⟩, ⟨86400000, 1, 5, 2, 4⟩].map
      (fun t : Tick => dayOf t.ts)) ∧
    (∀ t ∈ ([⟨0, 1, 3, 1, 2⟩, ⟨86400000, 1, 5, 2, 4⟩] : List Tick),
      dayOf t.ts ≠ 2) ∧
    cg_ohlc_utc_daily 2 [⟨0, 1, 3, 1, 2⟩, ⟨86400000, 1, 5, 2, 4⟩]
      = [⟨0, 3, 1, 2, 2⟩, ⟨1, 5, 2, 4, 3⟩] :=
  ⟨by decide, by decide,
    (cg_daily_idempotent 2 [⟨0, 1, 3, 1, 2⟩, ⟨86400000, 1, 5, 2, 4⟩]
      (by decide) (by decide)).trans (by decide)⟩

/-! ## C2: the raw window test -/

theorem nrWindow_length (rngs : List Rat) (w i : Nat) :
    (nrWindow rngs w i).length = min (i + 1) rngs.length - (i + 1 - w) := by
  simp [nrWindow]

theorem mem_nrWindow (rngs : List Rat) (w i : Nat) (x : Rat) :
    x ∈ nrWindow rngs w i ↔
      ∃ j, i + 1 - w ≤ j ∧ j ≤ i ∧ j < rngs.length ∧ rngs.getD j 0 = x := by
  simp only [nrWindow, List.mem_iff_getElem?, List.getElem?_drop, List.getElem?_take]
  constructor
  · rintro ⟨k, hk⟩
    by_cases hlt : i + 1 - w + k < i + 1
    · rw [if_pos hlt] at hk
      obtain ⟨hb, -⟩ := List.getElem?_eq_some.1 hk
      refine ⟨i + 1 - w + k, by omega, by omega, hb, ?_⟩
      rw [List.getD_eq_getElem?_getD, hk]
      rfl
    · rw [if_neg hlt] at hk
      exact absurd hk (by simp)
  · rintro ⟨j, hj1, hj2, hj3, hj4⟩
    refine ⟨j - (i + 1 - w), ?_⟩
    rw [show i + 1 - w + (j - (i + 1 - w)) = j by omega, if_pos (by omega)]
    rw [List.getD_eq_getElem?_getD, List.getElem?_eq_getElem hj3] at hj4
    simp only [Option.getD_some] at hj4
    rw [List.getElem?_eq_getElem hj3, hj4]

theorem rawNR_eq_true_iff (rngs : List Rat) (w i : Nat) :
    rawNR rngs w i = true ↔
      (w ≤ (nrWindow rngs w i).length ∧
        (nrWindow rngs w i).min? = some (rngs.getD i 0)) := by
  simp only [rawNR, nrWindowMin]
  by_cases hc : w ≤ (nrWindow rngs w i).length
  · rw [if_pos hc]
    cases hm : (nrWindow rngs w i).min? with
    | none =>
      refine ⟨fun h => absurd h Bool.false_ne_true,
        fun h => absurd h.2 (fun hh => Option.noConfusion hh)⟩
    | some m =>
      constructor
      · intro h
        exact ⟨hc, congrArg some (eq_of_beq h).symm⟩
      · rintro ⟨-, h⟩
        obtain rfl := Option.some.inj h
        exact beq_self_eq_true _
  · rw [if_neg hc]
    simp [hc]

theorem rawNR_iff (rngs : List Rat) (w i : Nat) (hw : 1 ≤ w) :
    rawNR rngs w i = true ↔
      (w ≤ i + 1 ∧ i < rngs.length ∧
        ∀ j, i + 1 - w ≤ j → j ≤ i → rngs.getD i 0 ≤ rngs.getD j 0) := by
  have hcond : (w ≤ (nrWindow rngs w i).length) ↔ (w ≤ i + 1 ∧ i < rngs.length) := by
    rw [nrWindow_length]
    omega
  haveI : Std.Antisymm ((· : Rat) ≤ ·) := ⟨fun h h' => le_antisymm h h'⟩
  have hminiff : ∀ m : Rat, (nrWindow rngs w i).min? = some m ↔
      m ∈ nrWindow rngs w i ∧ ∀ b ∈ nrWindow rngs w i, m ≤ b :=
    fun m => List.min?_eq_some_iff (fun a => le_refl a) (fun a b => min_choice a b)
      (fun a b c => le_min_iff)
  rw [rawNR_eq_true_iff]
  constructor
  · rintro ⟨hclen, hmin⟩
    obtain ⟨hw1, hw2⟩ := hcond.1 hclen
    refine ⟨hw1, hw2, fun j hj1 hj2 => ?_⟩
    exact ((hminiff _).1 hmin).2 _
      ((mem_nrWindow rngs w i _).2 ⟨j, hj1, hj2, by omega, rfl⟩)
  · rintro ⟨hw1, hw2, hall⟩
    refine ⟨hcond.2 ⟨hw1, hw2⟩, (hminiff _).2 ⟨?_, ?_⟩⟩
    · exact (mem_nrWindow rngs w i _).2 ⟨i, by omega, le_rfl, hw2, rfl⟩
    · intro b hb
      obtain ⟨j, hj1, hj2, hj3, rfl⟩ := (mem_nrWindow rngs w i _).1 hb
      exact hall j hj1 hj2

/-- C2: for w ∈ {4, 7, 10}, the raw window test of `compute_nr_flags` is
true exactly when w candles are available ending at i and range[i] is ≤
every range in the last w (spec `isNRw`); in particular it is false at
every index of a series shorter than w, false when the last range
strictly exceeds all w−1 prior ranges, and true when the last range ties
the prior minimum. -/
theorem rawNR_matches_spec (closed : List Candle) (w i : Nat)
    (hw : w = 4 ∨ w = 7 ∨ w = 10) :
    (rawNR (closed.map Candle.range) w i = true ↔
      isNRw_spec (closed.map Candle.range) w i) ∧
    (closed.length < w → rawNR (closed.map Candle.range) w i = false) ∧
    (w ≤ i + 1 → i < closed.length →
      (∀ j, i + 1 - w ≤ j → j < i →
        (closed.map Candle.range).getD j 0 < (closed.map Candle.range).getD i 0) →
      rawNR (closed.map Candle.range) w i = false) ∧
    (w ≤ i + 1 → i < closed.length →
      (∀ j, i + 1 - w ≤ j → j ≤ i →
        (closed.map Candle.range).getD i 0 ≤ (closed.map Candle.range).getD j 0) →
      rawNR (closed.map Candle.range) w i = true) := by
  have hw2 : 2 ≤ w := by rcases hw with rfl | rfl | rfl <;> omega
  have hlen : (closed.map Candle.range).length = closed.length := List.length_map _ _
  have hiff := rawNR_iff (closed.map Candle.range) w i (by omega)
  refine ⟨by simpa [isNRw_spec] using hiff, ?_, ?_, ?_⟩
  · intro hlt
    cases h : rawNR (closed.map Candle.range) w i
    · rfl
    · exfalso
      obtain ⟨ha, hb, -⟩ := hiff.1 h
      omega
  · intro hwle hi hstrict
    cases h : rawNR (closed.map Candle.range) w i
    · rfl
    · exfalso
      obtain ⟨-, -, hall⟩ := hiff.1 h
      have hjlt : i + 1 - w < i := by omega
      have h1 := hstrict (i + 1 - w) le_rfl hjlt
      have h2 := hall (i + 1 - w) le_rfl (by omega)
      exact absurd h2 (not_le.2 h1)
  · intro hwle hi hall
    exact hiff.2 ⟨hwle, by omega, hall⟩

/-- Witness for C2 at w = 4, i = 3 on a 4-candle series with ranges
5, 4, 6, 4 (the last range ties the prior minimum). -/
theorem rawNR_matches_spec_witness :
    rawNR (([⟨0, 2, 1, 1, 5⟩, ⟨1, 2, 1, 1, 4⟩, ⟨2, 2, 1, 1, 6⟩,
        ⟨3, 2, 1, 1, 4⟩] : List Candle).map Candle.range) 4 3 = true ↔
      isNRw_spec (([⟨0, 2, 1, 1, 5⟩, ⟨1, 2, 1, 1, 4⟩, ⟨2, 2, 1, 1, 6⟩,
        ⟨3, 2, 1, 1, 4⟩] : List Candle).map Candle.range) 4 3 :=
  (rawNR_matches_spec [⟨0, 2, 1, 1, 5⟩, ⟨1, 2, 1, 1, 4⟩, ⟨2, 2, 1, 1, 6⟩,
    ⟨3, 2, 1, 1, 4⟩] 4 3 (Or.inl rfl)).1
